import Mathlib

/-!
Verification of the gitlib repository abstraction: process-runner argument
safety, tree/entry path and symlink resolution, commit parent access,
submodule parsing, and the last-commit cache.  Each definition is a shallow
embedding of the corresponding Go function; Go runtime panics (out-of-range
slice indexing, nil dereference) are modelled by the explicit `Out.panic`
outcome.
-/

set_option autoImplicit false

namespace Gitlib

/-! ## String utilities

Go string primitives (`strings.Split`, `strings.HasPrefix`, `strings.TrimSpace`,
slicing) are modelled by structurally recursive functions over the character
list of a `String`, so that every definition evaluates by kernel reduction.
Strings stand for Go byte strings; all inputs relevant here are ASCII.
-/

/-- Character-list version of Go `strings.Split(s, sep)` for a one-character
separator: always returns at least one (possibly empty) piece. -/
def chSplit (sep : Char) : List Char → List (List Char)
  | [] => [[]]
  | c :: cs =>
    let r := chSplit sep cs
    if c = sep then [] :: r
    else
      match r with
      | [] => [[c]]
      | h :: t => (c :: h) :: t

/-- Whether the first list is a leading run of the second (Go `strings.HasPrefix`). -/
def chLeads : List Char → List Char → Bool
  | [], _ => true
  | _ :: _, [] => false
  | p :: ps, c :: cs => p = c && chLeads ps cs

/-- Go `strings.Split(s, string(sep))`. -/
def strSplit (s : String) (sep : Char) : List String :=
  (chSplit sep s.data).map String.mk

/-- Go `strings.HasPrefix(s, pat)`. -/
def strStarts (s pat : String) : Bool :=
  chLeads pat.data s.data

/-- Go `s[n:]` (byte slicing, on ASCII data). -/
def strDrop (s : String) (n : Nat) : String :=
  String.mk (s.data.drop n)

/-- Go `s[:n]` (byte slicing, on ASCII data). -/
def strTake (s : String) (n : Nat) : String :=
  String.mk (s.data.take n)

/-- Go `len(s)` for ASCII data. -/
def strLen (s : String) : Nat :=
  s.data.length

/-- ASCII whitespace recognised by Go `unicode.IsSpace` (the inputs parsed
here are ASCII configuration text). -/
def isSpaceCh (c : Char) : Bool :=
  c = ' ' || c = '\t' || c = '\n' || c = '\r'

/-- Go `strings.TrimSpace` on ASCII data. -/
def strTrim (s : String) : String :=
  String.mk (((s.data.dropWhile isSpaceCh).reverse.dropWhile isSpaceCh).reverse)

/-- Join character-list pieces with a separator (used by the path cleaner). -/
def chJoin (sep : Char) : List (List Char) → List Char
  | [] => []
  | [x] => x
  | x :: y :: t => x ++ sep :: chJoin sep (y :: t)

/-- Go's byte-wise lexicographic string comparison `s1 < s2`, on the
character lists (the data here is ASCII, where byte order and character
order agree). -/
def chLt : List Char → List Char → Bool
  | [], [] => false
  | [], _ :: _ => true
  | _ :: _, [] => false
  | a :: as, b :: bs =>
    if a < b then true
    else if b < a then false
    else chLt as bs

/-- Go `s1 < s2` on strings. -/
def strLtb (s1 s2 : String) : Bool :=
  chLt s1.data s2.data

/-! ## Errors and outcomes -/

/-- The error values the embedded operations produce:
`notExist` is `ErrNotExist{ID, RelPath}`; `badLink` is `ErrBadLink{Name, message}`;
`objNotFound` is go-git `plumbing.ErrObjectNotFound`; `brokenCmd` is
`ErrBrokenCommand`; `invalidID` is the malformed-identity error of
`NewIDFromString`; `backendFail` wraps any other process/backend failure. -/
inductive GErr where
  | notExist (id relPath : String)
  | badLink (name msg : String)
  | objNotFound
  | brokenCmd
  | invalidID (s : String)
  | backendFail (msg : String)
deriving DecidableEq

/-- Result of a Go call returning `(value, error)`.  `panic` marks inputs on
which the Go code raises a runtime panic (index out of range, nil
dereference); such inputs are outside the function's domain. -/
inductive Out (α : Type) where
  | ok (a : α)
  | err (e : GErr)
  | panic
deriving DecidableEq

/-- Whether an outcome is a normal result (non-error, non-panic). -/
def Out.isOk {α : Type} : Out α → Bool
  | .ok _ => true
  | _ => false

/-- Go `IsErrNotExist`. -/
def isErrNotExist : GErr → Bool
  | .notExist _ _ => true
  | _ => false

/-! ## Object identity

The `SHA1` type of the repository (fixed 20-byte hash) is carried around by
its canonical 40-character lowercase hex string form; equality of hashes is
equality of these strings.
-/

/-- Canonical string form of a gitlib SHA1 object id. -/
abbrev SHA1 := String

/-- Whether a character is a hexadecimal digit. -/
def isHexCh (c : Char) : Bool :=
  ('0' ≤ c && c ≤ '9') || ('a' ≤ c && c ≤ 'f') || ('A' ≤ c && c ≤ 'F')

/-- Lowercase an ASCII letter (hex canonicalisation). -/
def lowerCh (c : Char) : Char :=
  if 'A' ≤ c && c ≤ 'Z' then Char.ofNat (c.toNat + 32) else c

/-- Modelled from the spec: `NewIDFromString` is not among the provided
source files; per the spec, parsing a candidate string into a fixed-length
ObjectID fails with a malformed-identity error if the length is not 40 or a
character is not hex, and renders canonically as lowercase hex. -/
def newIDFromString (s : String) : Out SHA1 :=
  if strLen s = 40 && s.data.all isHexCh then .ok (String.mk (s.data.map lowerCh))
  else .err (.invalidID s)

/-! ## Process runner (`Command`) -/

/-- `Command` from the process-runner: the executable name, the accumulated
argument list and the queued broken (rejected dynamic) arguments.  The
context, description and global-argument-count fields do not affect the
verified behaviour. -/
structure Command where
  name : String
  args : List String
  brokenArgs : List String
deriving DecidableEq

/-- Whether a dynamic argument is rejected: Go `arg != "" && arg[0] == '-'`. -/
def startsWithDash (a : String) : Bool :=
  match a.data with
  | [] => false
  | c :: _ => c = '-'

/-- `NewCommand` with the default empty `globalCommandArgs` and the default
`GitExecutable`. -/
def newCommand (args : List String) : Command :=
  { name := "git", args := args, brokenArgs := [] }

/-- `Command.AddArguments`: trusted arguments are appended unconditionally. -/
def addArguments (c : Command) (args : List String) : Command :=
  { c with args := c.args ++ args }

/-- `Command.AddDynamicArguments`: every non-empty argument starting with
`-` is queued into `brokenArgs`; if `brokenArgs` is then non-empty (also
from earlier calls) the arguments are not appended. -/
def addDynamicArguments (c : Command) (args : List String) : Command :=
  let broken := c.brokenArgs ++ args.filter (fun a => !(a == "") && startsWithDash a)
  if broken = [] then { c with brokenArgs := broken, args := c.args ++ args }
  else { c with brokenArgs := broken }

/-- `Command.AddDashesAndList`: appends the `--` separator and then the list. -/
def addDashesAndList (c : Command) (list : List String) : Command :=
  { c with args := (c.args ++ ["--"]) ++ list }

/-- The observable decision of `Command.Run`: either the distinct
`ErrBrokenCommand` refusal (before any process is started) or the spawn of
the external executable with the accumulated argument vector. -/
inductive RunResult where
  | brokenCommand
  | spawn (name : String) (args : List String)
deriving DecidableEq

/-- `Command.Run` up to the spawn decision: a command with queued broken
arguments deterministically fails with `ErrBrokenCommand` and never reaches
`exec.CommandContext`. -/
def runCmd (c : Command) : RunResult :=
  if c.brokenArgs = [] then .spawn c.name c.args
  else .brokenCommand

/-! ## Commit model and repository backend -/

/-- A commit as the verified operations observe it: its object id and the
ids of its parents.  The remaining Go fields (author, committer, message,
signature, embedded tree) do not influence the verified operations. -/
structure Commit where
  id : SHA1
  parents : List SHA1
deriving DecidableEq

/-- The repository backend consumed by the embedded operations:
`commits` is the commit object store behind `Repository.getCommit`
(the tag-object indirection of `getCommit` is collapsed into the store);
`exec` is one external `git` invocation, mapping the argument vector to its
stdout, `none` meaning a non-zero exit; `revParse` is the
`git rev-parse --verify` backend used by `ConvertToSHA1` for short ids,
`none` meaning an unknown revision. -/
structure Repo where
  path : String
  commits : SHA1 → Option Commit
  exec : List String → Option String
  revParse : String → Option String

/-- `Command.RunStdString`: the broken-arguments refusal of `Run`, then one
spawned process whose stdout is returned. -/
def runStdString (repo : Repo) (c : Command) : Out String :=
  match runCmd c with
  | .brokenCommand => .err .brokenCmd
  | .spawn _ args =>
    match repo.exec args with
    | none => .err (.backendFail "exit status 128")
    | some stdout => .ok stdout

/-- `Repository.getCommit`: look the id up in the commit store;
a missing object is `ErrNotExist{id, ""}`. -/
def getCommitLow (repo : Repo) (id : SHA1) : Out Commit :=
  match repo.commits id with
  | none => .err (.notExist id "")
  | some c => .ok c

/-- The rev-parse fallback of `ConvertToSHA1`. -/
def convertFallback (repo : Repo) (commitID : String) : Out SHA1 :=
  match repo.revParse commitID with
  | none => .err (.notExist commitID "")
  | some stdout => newIDFromString stdout

/-- `Repository.ConvertToSHA1`: a 40-character string that parses is used
directly; otherwise the id is resolved through `git rev-parse --verify`. -/
def convertToSHA1 (repo : Repo) (commitID : String) : Out SHA1 :=
  if strLen commitID = 40 then
    match newIDFromString commitID with
    | .ok sha => .ok sha
    | _ => convertFallback repo commitID
  else convertFallback repo commitID

/-- `Repository.GetCommit`: `ConvertToSHA1` then `getCommit`. -/
def repoGetCommit (repo : Repo) (commitID : String) : Out Commit :=
  match convertToSHA1 repo commitID with
  | .err e => .err e
  | .panic => .panic
  | .ok sha => getCommitLow repo sha

/-- The `prettyLogFormat` constant. -/
def prettyLogFormat : String := "--pretty=format:%H"

/-- `Commit.ParentID`: 0-based parent id access over a Go `int` index.
`n >= len(c.Parents)` yields `ErrNotExist{"", ""}`; a negative `n` reaches
`c.Parents[n]` and panics with index out of range. -/
def parentID (c : Commit) (n : Int) : Out SHA1 :=
  if (c.parents.length : Int) ≤ n then .err (.notExist "" "")
  else if n < 0 then .panic
  else
    match c.parents.get? n.toNat with
    | some p => .ok p
    | none => .panic

/-- `Commit.Parent`: `ParentID` then `repo.getCommit`. -/
def parent (repo : Repo) (c : Commit) (n : Int) : Out Commit :=
  match parentID c n with
  | .err e => .err e
  | .panic => .panic
  | .ok id => getCommitLow repo id

/-- `Repository.getCommitByPathWithID`: escapes a leading `:` of the path
by reading its first byte (panicking on the empty path), runs
`git log -1 <format> <id> -- <relpath>` through the command layer, parses
the printed hash and materialises the commit. -/
def getCommitByPathWithID (repo : Repo) (id : SHA1) (relpath : String) : Out Commit :=
  match relpath.data with
  | [] => .panic
  | c0 :: _ =>
    let rp := if c0 = ':' then "\\" ++ relpath else relpath
    let cmd := addDashesAndList (addDynamicArguments (newCommand ["log", "-1", prettyLogFormat]) [id]) [rp]
    match runStdString repo cmd with
    | .err e => .err e
    | .panic => .panic
    | .ok stdout =>
      match newIDFromString stdout with
      | .err e => .err e
      | .panic => .panic
      | .ok id2 => getCommitLow repo id2

/-! ## Last-commit cache -/

/-- The injected generic cache backend, restricted to the string values the
last-commit cache stores.  `putOk` models whether `Put` currently succeeds
(a failing backend write returns an error and leaves the store unchanged). -/
structure CacheBackend where
  store : List (String × String)
  putOk : Bool
deriving DecidableEq

/-- Backend `Get`: `none` is the absent (first-level miss) answer. -/
def backendGet (b : CacheBackend) (k : String) : Option String :=
  (b.store.find? (fun p => p.1 = k)).map (fun p => p.2)

/-- Backend `Put` with its error result: the boolean is `true` when the
write succeeded. -/
def backendPut (b : CacheBackend) (k v : String) : CacheBackend × Bool :=
  if b.putOk then ({ b with store := (k, v) :: b.store }, true)
  else (b, false)

/-- `getCacheKey`: the SHA-256 digest of `repoPath:ref:entryPath` prefixed
with `last_commit:`.  The digest is modelled by the serialised preimage
itself; the backend treats keys opaquely, so only key equality matters. -/
def getCacheKey (repoPath ref entryPath : String) : String :=
  "last_commit:" ++ repoPath ++ ":" ++ ref ++ ":" ++ entryPath

/-- `LastCommitCache`: the repository path baked into cache keys and the
in-process second-level commit materialisation cache. -/
structure LCC where
  repoPath : String
  commitCache : List (String × Commit)
deriving DecidableEq

/-- The `CacheService.LastCommit` settings consulted by the enablement
policy: the global feature flag and the commit-count threshold. -/
structure LastCommitSettings where
  enabled : Bool
  commitsCount : Int

/-- `NewLastCommitCache`: `nil` unless a backend is injected, the feature
flag is on, and the repository commit count reaches the threshold. -/
def newLastCommitCache (st : LastCommitSettings) (count : Int) (repoPath : String)
    (cachePresent : Bool) : Option LCC :=
  if !cachePresent then none
  else if !st.enabled || count < st.commitsCount then none
  else some { repoPath := repoPath, commitCache := [] }

/-- `LastCommitCache.Get`: a first-level backend miss (absent key, or a
non-string or empty stored value) is the `(nil, nil)` answer; a hit is
materialised through the in-process commit cache, populating it on a
second-level miss. -/
def lccGet (repo : Repo) (b : CacheBackend) (c : LCC) (ref entryPath : String) :
    Out (Option Commit) × LCC :=
  match backendGet b (getCacheKey c.repoPath ref entryPath) with
  | none => (.ok none, c)
  | some commitID =>
    if commitID = "" then (.ok none, c)
    else
      match c.commitCache.find? (fun p => p.1 = commitID) with
      | some p => (.ok (some p.2), c)
      | none =>
        match repoGetCommit repo commitID with
        | .err e => (.err e, c)
        | .panic => (.panic, c)
        | .ok commit => (.ok (some commit), { c with commitCache := (commitID, commit) :: c.commitCache })

/-- `LastCommitCache.Put`: writes the commit id under the derived key with
the configured TTL; the boolean is the write's success. -/
def lccPut (b : CacheBackend) (c : LCC) (ref entryPath commitID : String) :
    CacheBackend × Bool :=
  backendPut b (getCacheKey c.repoPath ref entryPath) commitID

/-- `LastCommitCache.GetCommitByPath`: parse the id, try `Get`, on a miss
compute via `getCommitByPathWithID`, then best-effort `Put` (a failed write
is logged and dropped) and return the computed commit either way.  Note the
`Get` key uses the canonical `sha.String()` while the `Put` key uses the
caller's `commitID` string, as in the source. -/
def lccGetCommitByPath (repo : Repo) (b : CacheBackend) (c : LCC)
    (commitID entryPath : String) : Out Commit × CacheBackend × LCC :=
  match newIDFromString commitID with
  | .err e => (.err e, b, c)
  | .panic => (.panic, b, c)
  | .ok sha =>
    match lccGet repo b c sha entryPath with
    | (.err e, c1) => (.err e, b, c1)
    | (.panic, c1) => (.panic, b, c1)
    | (.ok (some commit), c1) => (.ok commit, b, c1)
    | (.ok none, c1) =>
      match getCommitByPathWithID repo sha entryPath with
      | .err e => (.err e, b, c1)
      | .panic => (.panic, b, c1)
      | .ok lastCommit =>
        let pr := lccPut b c1 commitID entryPath lastCommit.id
        (.ok lastCommit, pr.1, c1)

/-- `Commit.GetCommitByPath`: through the repository's last-commit cache
when one is configured, directly otherwise. -/
def commitGetCommitByPath (repo : Repo) (b : CacheBackend) (olcc : Option LCC)
    (c : Commit) (relpath : String) : Out Commit × CacheBackend × Option LCC :=
  match olcc with
  | some lcc =>
    let r := lccGetCommitByPath repo b lcc c.id relpath
    (r.1, r.2.1, some r.2.2)
  | none => (getCommitByPathWithID repo c.id relpath, b, none)

/-! ## Tree model -/

/-- The git entry modes (the octal `filemode` constants of the source). -/
inductive EntryMode where
  | regular
  | executable
  | symlink
  | dir
  | submodule
deriving DecidableEq

/-- A raw tree-object entry as decoded from the object store
(go-git `object.TreeEntry`): name, mode and target hash. -/
structure GoTreeEntry where
  name : String
  mode : EntryMode
  hash : SHA1
deriving DecidableEq

/-- A `Tree` value: its object id plus the optional parent back-reference
(`ptree`) installed by `SubTree` during descent; `top` is a tree whose
`ptree` is nil. -/
inductive Tree where
  | top (id : SHA1)
  | sub (id : SHA1) (parentTree : Tree)
deriving DecidableEq

/-- The tree's object id. -/
def Tree.id : Tree → SHA1
  | .top i => i
  | .sub i _ => i

/-- The tree's `ptree` back-reference. -/
def Tree.ptree : Tree → Option Tree
  | .top _ => none
  | .sub _ p => some p

/-- A `TreeEntry`: target id, the decoded raw entry, and the owning tree
back-reference (nil for the synthetic root entry).  The `fullName` field of
the source is only set by recursive listings, which are not modelled. -/
structure TreeEntry where
  id : SHA1
  entry : GoTreeEntry
  ptree : Option Tree
deriving DecidableEq

/-- `TreeEntry.Name`. -/
def teName (te : TreeEntry) : String :=
  te.entry.name

/-- `TreeEntry.IsDir`. -/
def isDir (te : TreeEntry) : Bool :=
  te.entry.mode == .dir

/-- `TreeEntry.IsSubModule`. -/
def isSubModule (te : TreeEntry) : Bool :=
  te.entry.mode == .submodule

/-- `TreeEntry.IsLink`. -/
def isLink (te : TreeEntry) : Bool :=
  te.entry.mode == .symlink

/-- The repository object store behind the tree operations: `trees` is the
tree object database (`TreeObject`; `none` covers both a missing id and a
non-tree object, both reported as `plumbing.ErrObjectNotFound`), `blobs`
gives blob contents (`none` when the object store has no blob, in which
case `TreeEntry.Blob()` returns nil). -/
structure GitStorage where
  trees : SHA1 → Option (List GoTreeEntry)
  blobs : SHA1 → Option String

/-- `Tree.ListEntries`: decode the child list of the tree, each child
carrying the owning tree as its `ptree`. -/
def listEntries (σ : GitStorage) (t : Tree) : Out (List TreeEntry) :=
  match σ.trees t.id with
  | none => .err .objNotFound
  | some es => .ok (es.map (fun e => { id := e.hash, entry := e, ptree := some t }))

/-- `Repository.getTree`: load the tree object for an id (fresh, no
`ptree`). -/
def getTree (σ : GitStorage) (id : SHA1) : Out Tree :=
  match σ.trees id with
  | none => .err .objNotFound
  | some _ => .ok (.top id)

/-- The synthetic self-referencing directory entry returned by
`GetTreeEntryByPath("")`: name `""`, directory mode, hash the tree's own
id, and no owning tree. -/
def syntheticRoot (t : Tree) : TreeEntry :=
  { id := t.id, entry := { name := "", mode := .dir, hash := t.id }, ptree := none }

/-- The element-stack pass of Go `path.Clean`: drops a `..` together with
the preceding element, keeps leading `..` elements of a relative path, and
drops `..` at the root of a rooted path.  The accumulator is reversed. -/
def pathCleanCore (rooted : Bool) (comps : List (List Char)) : List (List Char) :=
  comps.foldl
    (fun acc c =>
      if c = ['.', '.'] then
        match acc with
        | [] => if rooted then [] else [c]
        | t :: rest => if t = ['.', '.'] then c :: t :: rest else rest
      else c :: acc)
    []

/-- Go `path.Clean`: lexical cleaning of a slash-separated path (collapse
multiple slashes, drop `.` elements, resolve `..` elements, empty result
becomes `.`). -/
def pathClean (p : String) : String :=
  if p = "" then "."
  else
    let rooted := strStarts p "/"
    let comps := (chSplit '/' p.data).filter (fun c => decide (c ≠ [] ∧ c ≠ ['.']))
    let body := chJoin '/' (pathCleanCore rooted comps).reverse
    if rooted then String.mk ('/' :: body)
    else if body = [] then "." else String.mk body

/-- `Tree.GetTreeEntryByPath` as invoked by `SubTree` on a single path
segment (never containing `/`): cleaning the segment leaves it a single
part, so the function reduces to its terminal linear scan of
`ListEntries()`, with `plumbing.ErrObjectNotFound` rewritten to
`ErrNotExist` carrying the cleaned segment. -/
def getTreeEntryByPathSeg (σ : GitStorage) (t : Tree) (name : String) : Out TreeEntry :=
  if strLen name = 0 then .ok (syntheticRoot t)
  else
    let rp := pathClean name
    match listEntries σ t with
    | .err .objNotFound => .err (.notExist "" rp)
    | .err e => .err e
    | .panic => .panic
    | .ok entries =>
      match entries.find? (fun v => teName v == rp) with
      | some v => .ok v
      | none => .err (.notExist "" rp)

/-- `Tree.SubTree` on a single segment (its only use): resolve the entry in
the current level, load its tree object, and install the current tree as
the loaded tree's `ptree`. -/
def subTreeSingle (σ : GitStorage) (t : Tree) (name : String) : Out Tree :=
  if strLen name = 0 then .ok t
  else
    match getTreeEntryByPathSeg σ t name with
    | .err e => .err e
    | .panic => .panic
    | .ok te =>
      match getTree σ te.id with
      | .err e => .err e
      | .panic => .panic
      | .ok g => .ok (.sub g.id t)

/-- The segment loop of `Tree.GetTreeEntryByPath` over the parts of the
cleaned path: the terminal segment is matched by a linear scan of that
level's entries, intermediate segments descend through `SubTree`;
`plumbing.ErrObjectNotFound` at either place is rewritten to `ErrNotExist`
carrying the full cleaned path, other errors propagate; falling out of the
loop yields `ErrNotExist{"", relpath}`. -/
def getTreeEntryByPathAux (σ : GitStorage) (t : Tree) :
    List String → String → Out TreeEntry
  | [], relpath => .err (.notExist "" relpath)
  | [name], relpath =>
    (match listEntries σ t with
     | .err .objNotFound => .err (.notExist "" relpath)
     | .err e => .err e
     | .panic => .panic
     | .ok entries =>
       match entries.find? (fun v => teName v == name) with
       | some v => .ok v
       | none => .err (.notExist "" relpath))
  | name :: rest, relpath =>
    (match subTreeSingle σ t name with
     | .err .objNotFound => .err (.notExist "" relpath)
     | .err e => .err e
     | .panic => .panic
     | .ok t2 => getTreeEntryByPathAux σ t2 rest relpath)

/-- `Tree.GetTreeEntryByPath`: the empty path resolves to the synthetic
root entry; otherwise the path is cleaned, split on `/` and descended. -/
def getTreeEntryByPath (σ : GitStorage) (t : Tree) (relpath : String) : Out TreeEntry :=
  if strLen relpath = 0 then .ok (syntheticRoot t)
  else
    let rp := pathClean relpath
    getTreeEntryByPathAux σ t (strSplit rp '/') rp

/-- `TreeEntry.Size`: directories report 0; otherwise the blob's size (0
when the file cannot be loaded). -/
def entrySize (σ : GitStorage) (te : TreeEntry) : Nat :=
  if isDir te then 0
  else
    match σ.blobs te.entry.hash with
    | none => 0
    | some s => strLen s

/-- The body of the ancestor loop of `FollowLink` from a non-nil tree:
while the link starts with `../`, step to the tree's `ptree` and drop the
prefix; stepping past a parentless tree exits the loop with nil. -/
def ascendLoopTree : Tree → String → Option Tree × String
  | .top id, lnk =>
    if strStarts lnk "../" then (none, strDrop lnk 3) else (some (.top id), lnk)
  | .sub id p, lnk =>
    if strStarts lnk "../" then ascendLoopTree p (strDrop lnk 3)
    else (some (.sub id p), lnk)

/-- The ancestor loop of `FollowLink`:
`for ; t != nil && strings.HasPrefix(lnk, "../"); lnk = lnk[3:] { t = t.ptree }`.
Returns the arrived-at tree (or nil when the chain is exhausted) and the
remaining link path. -/
def ascendLoop : Option Tree → String → Option Tree × String
  | none, lnk => (none, lnk)
  | some t, lnk => ascendLoopTree t lnk

/-- `TreeEntry.FollowLink`: non-symlinks are rejected; the link target is
read from the entry's blob (a missing blob makes `te.Blob()` nil and the
following `DataAsync` call a nil dereference), exactly `Size()` bytes are
required; leading `../` segments are stripped while stepping up ancestor
trees; an exhausted ancestor chain is "points outside of repo"; the
remaining path resolves via `GetTreeEntryByPath` on the arrived-at tree,
with not-found rewritten to "broken link". -/
def followLink (σ : GitStorage) (te : TreeEntry) : Out TreeEntry :=
  if !isLink te then .err (.badLink (teName te) "not a symlink")
  else
    match σ.blobs te.entry.hash with
    | none => .panic
    | some content =>
      let sz := entrySize σ te
      if strLen content < sz then .err (.backendFail "unexpected EOF")
      else
        let lnk := strTake content sz
        match ascendLoop te.ptree lnk with
        | (none, _) => .err (.badLink (teName te) "points outside of repo")
        | (some t, lnk2) =>
          match getTreeEntryByPath σ t lnk2 with
          | .err e =>
            if isErrNotExist e then .err (.badLink (teName te) "broken link")
            else .err e
          | .panic => .panic
          | .ok target => .ok target

/-- The 999-iteration loop of `FollowLinks`: follow while the current entry
is a symlink, failing with "recursive link" when a resolved target's id
equals the id of the entry that pointed to it; returns the entry reached
when the loop breaks or the iteration budget ends. -/
def followLinksAux (σ : GitStorage) : Nat → TreeEntry → Out TreeEntry
  | 0, entry => .ok entry
  | fuel + 1, entry =>
    if isLink entry then
      match followLink σ entry with
      | .err e => .err e
      | .panic => .panic
      | .ok next =>
        if next.id = entry.id then .err (.badLink (teName entry) "recursive link")
        else followLinksAux σ fuel next
    else .ok entry

/-- `TreeEntry.FollowLinks`: reject non-symlinks, run the bounded loop, and
fail with "too many levels of symbolic links" (named after the original
entry) when the loop ends on a symlink. -/
def followLinks (σ : GitStorage) (te : TreeEntry) : Out TreeEntry :=
  if !isLink te then .err (.badLink (teName te) "not a symlink")
  else
    match followLinksAux σ 999 te with
    | .err e => .err e
    | .panic => .panic
    | .ok entry =>
      if isLink entry then .err (.badLink (teName te) "too many levels of symbolic links")
      else .ok entry

/-! ## Entry sorting -/

/-- The first comparator of the `sorter` array: directories and submodules
sort before everything that is neither. -/
def sorter0 (t1 t2 : TreeEntry) : Bool :=
  (isDir t1 || isSubModule t1) && !isDir t2 && !isSubModule t2

/-- The second comparator of the `sorter` array: the name comparator. -/
def sorter1 (cmp : String → String → Bool) (t1 t2 : TreeEntry) : Bool :=
  cmp (teName t1) (teName t2)

/-- `customSortableEntries.Less` for the two-element `sorter` array: decide
by the first comparator, fall through to the name comparator on a tie. -/
def entriesLess (cmp : String → String → Bool) (t1 t2 : TreeEntry) : Bool :=
  if sorter0 t1 t2 then true
  else if sorter0 t2 t1 then false
  else sorter1 cmp t1 t2

/-- The non-strict order induced by `Less`, in which `sort.Sort` output is
nondecreasing: `a` may precede `b` iff `Less(b, a)` is false. -/
def entriesLE (cmp : String → String → Bool) (a b : TreeEntry) : Prop :=
  entriesLess cmp b a = false

instance (cmp : String → String → Bool) : DecidableRel (entriesLE cmp) := by
  intro a b
  unfold entriesLE
  infer_instance

/-- `Entries.CustomSort`: Go `sort.Sort` with the two-tier `Less`.
`sort.Sort` guarantees a `Less`-nondecreasing reordering and (through its
already-sorted fast path) returns an already sorted slice unchanged; it is
modelled by insertion sort, which has exactly these properties. -/
def entriesCustomSort (cmp : String → String → Bool) (l : List TreeEntry) : List TreeEntry :=
  List.insertionSort (entriesLE cmp) l

/-- The default name comparator of `Entries.Sort` (`s1 < s2`). -/
def defaultCmp : String → String → Bool :=
  fun s1 s2 => strLtb s1 s2

/-- `Entries.Sort`: `CustomSort` with the default lexicographic string
comparator `s1 < s2`. -/
def entriesSort (l : List TreeEntry) : List TreeEntry :=
  entriesCustomSort defaultCmp l

/-! ## Submodule parsing -/

/-- A parsed submodule: the block's collected `path` and `url` values
(the positional fields of the Go literal `SubModule{path, url}`). -/
structure SubModule where
  name : String
  url : String
deriving DecidableEq

/-- `ObjectCache.Set`: keyed insert, later writes shadowing earlier ones. -/
def objCacheSet (acc : List (String × SubModule)) (k : String) (v : SubModule) :
    List (String × SubModule) :=
  (k, v) :: acc

/-- The line loop of `Commit.GetSubModules` over the scanner's lines:
`[submodule` opens a block; inside a block the line is split on `=`, its
first field trimmed, and `path`/`url` values collected (a `url` closes the
block); other lines are skipped.  A block line whose whole content trims to
`path` or `url` with no `=` present reaches `fields[1]` and panics. -/
def parseSubModulesLines :
    List String → Bool → String → List (String × SubModule) →
    Out (List (String × SubModule))
  | [], _, _, acc => .ok acc
  | line :: rest, ismodule, path, acc =>
    if strStarts line "[submodule" then parseSubModulesLines rest true path acc
    else if ismodule then
      let fields := strSplit line '='
      let k := strTrim (fields.headD "")
      if k = "path" then
        match fields.get? 1 with
        | none => .panic
        | some f1 => parseSubModulesLines rest ismodule (strTrim f1) acc
      else if k = "url" then
        match fields.get? 1 with
        | none => .panic
        | some f1 => parseSubModulesLines rest false path (objCacheSet acc path { name := path, url := strTrim f1 })
      else parseSubModulesLines rest ismodule path acc
    else parseSubModulesLines rest ismodule path acc

/-- `Commit.GetSubModules` on the scanned lines of a `.gitmodules` blob,
starting outside any block with an empty current path. -/
def getSubModules (lines : List String) : Out (List (String × SubModule)) :=
  parseSubModulesLines lines false "" []

/-- A `.gitmodules` line that keeps the parser inside its domain: if its
content before the first `=` trims to `path` or `url`, an `=` must be
present (otherwise `fields[1]` is out of range). -/
def SubModuleLineSafe (line : String) : Prop :=
  (strTrim ((strSplit line '=').headD "") = "path" ∨
   strTrim ((strSplit line '=').headD "") = "url") →
  2 ≤ (strSplit line '=').length

instance (line : String) : Decidable (SubModuleLineSafe line) := by
  unfold SubModuleLineSafe
  infer_instance

/-- Combined dir-or-submodule test used by the sort order. -/
def dirish (te : TreeEntry) : Bool :=
  isDir te || isSubModule te

/-- One non-cyclic hop of a symlink chain: the entry is a symlink,
`FollowLink` resolves it to the next element, and the resolved target's id
differs from the id of the entry that pointed to it. -/
def ChainStep (σ : GitStorage) (chain : Nat → TreeEntry) (i : Nat) : Prop :=
  isLink (chain i) = true ∧
  followLink σ (chain i) = .ok (chain (i + 1)) ∧
  (chain (i + 1)).id ≠ (chain i).id

instance (σ : GitStorage) (chain : Nat → TreeEntry) (i : Nat) :
    Decidable (ChainStep σ chain i) := by
  unfold ChainStep
  infer_instance

/-! ## Concrete fixtures used by witnesses and counterexamples -/

/-- A commit with one parent (counterexample and witness input for parent
access). -/
def cexCommit : Commit :=
  { id := "c0", parents := ["p0"] }

/-- The parent commit object of `cexCommit`. -/
def parentCommitFix : Commit :=
  { id := "p0", parents := [] }

/-- A repository backend containing just `parentCommitFix`. -/
def repoParentFix : Repo :=
  { path := "/r"
    commits := fun i => if i = "p0" then some parentCommitFix else none
    exec := fun _ => none
    revParse := fun _ => none }

/-- A 40-hex commit id used by the cache fixtures. -/
def hexA : String := "aaaaaaaaaaaaaaaaaaaaaaaaaaaaaaaaaaaaaaaa"

/-- A second 40-hex commit id used by the cache fixtures. -/
def hexB : String := "bbbbbbbbbbbbbbbbbbbbbbbbbbbbbbbbbbbbbbbb"

/-- A repository backend whose history walk always reports `hexB` and whose
commit store contains the `hexB` commit. -/
def repoCacheFix : Repo :=
  { path := "/r"
    commits := fun i => if i = hexB then some { id := hexB, parents := [] } else none
    exec := fun _ => some hexB
    revParse := fun _ => none }

/-- An empty last-commit cache for repository path `/r`. -/
def lccFix : LCC :=
  { repoPath := "/r", commitCache := [] }

/-- An empty cache backend whose writes fail. -/
def backendFailFix : CacheBackend :=
  { store := [], putOk := false }

/-- An empty cache backend whose writes succeed. -/
def backendOkFix : CacheBackend :=
  { store := [], putOk := true }

/-- A tree store with a single tree `t0` holding only the directory `b`
(counterexample input for path resolution). -/
def storPathFix : GitStorage :=
  { trees := fun i => if i = "t0" then some [{ name := "b", mode := .dir, hash := "h1" }] else none
    blobs := fun _ => none }

/-- The root tree of `storPathFix`. -/
def treePathFix : Tree := Tree.top "t0"

/-- A tree store with one level `ta`: symlink `a` to `b`, symlink `b` to
`c`, regular file `c` (witness input for chained resolution). -/
def storChainFix : GitStorage :=
  { trees := fun i =>
      if i = "ta" then
        some [{ name := "a", mode := .symlink, hash := "ha" },
              { name := "b", mode := .symlink, hash := "hb" },
              { name := "c", mode := .regular, hash := "hc" }]
      else none
    blobs := fun i => if i = "ha" then some "b" else if i = "hb" then some "c" else none }

/-- The symlink `a` of `storChainFix`. -/
def entA : TreeEntry :=
  { id := "ha", entry := { name := "a", mode := .symlink, hash := "ha" }, ptree := some (Tree.top "ta") }

/-- The symlink `b` of `storChainFix`. -/
def entB : TreeEntry :=
  { id := "hb", entry := { name := "b", mode := .symlink, hash := "hb" }, ptree := some (Tree.top "ta") }

/-- The regular file `c` of `storChainFix`. -/
def entC : TreeEntry :=
  { id := "hc", entry := { name := "c", mode := .regular, hash := "hc" }, ptree := some (Tree.top "ta") }

/-- The chain function a → b → c over `storChainFix`. -/
def chainFix : Nat → TreeEntry :=
  fun i => if i = 0 then entA else if i = 1 then entB else entC

/-- A tree store with one self-referential symlink `s` (witness input for
the recursive-link failure). -/
def storSelfFix : GitStorage :=
  { trees := fun i => if i = "tb" then some [{ name := "s", mode := .symlink, hash := "hs" }] else none
    blobs := fun i => if i = "hs" then some "s" else none }

/-- The self-referential symlink of `storSelfFix`. -/
def entSelf : TreeEntry :=
  { id := "hs", entry := { name := "s", mode := .symlink, hash := "hs" }, ptree := some (Tree.top "tb") }

/-- A tree store with a two-cycle of symlinks a ↔ b (witness input for the
hop-bound failure). -/
def storCycleFix : GitStorage :=
  { trees := fun i =>
      if i = "tc" then
        some [{ name := "a", mode := .symlink, hash := "pa" },
              { name := "b", mode := .symlink, hash := "pb" }]
      else none
    blobs := fun i => if i = "pa" then some "b" else if i = "pb" then some "a" else none }

/-- The symlink `a` of the two-cycle. -/
def entCycA : TreeEntry :=
  { id := "pa", entry := { name := "a", mode := .symlink, hash := "pa" }, ptree := some (Tree.top "tc") }

/-- The symlink `b` of the two-cycle. -/
def entCycB : TreeEntry :=
  { id := "pb", entry := { name := "b", mode := .symlink, hash := "pb" }, ptree := some (Tree.top "tc") }

/-- The alternating chain a, b, a, b, … over `storCycleFix`. -/
def chainCycFix : Nat → TreeEntry :=
  fun i => if i % 2 = 0 then entCycA else entCycB

/-- A two-level tree store for single-hop symlink resolution: root `t0`
holds the file `f` and the directory `d` (tree `t1`), and `t1` holds the
symlink `l` to `../f` and the symlink `m` to `../../x`. -/
def storLinkFix : GitStorage :=
  { trees := fun i =>
      if i = "t0" then
        some [{ name := "f", mode := .regular, hash := "F" },
              { name := "d", mode := .dir, hash := "t1" }]
      else if i = "t1" then
        some [{ name := "l", mode := .symlink, hash := "L" },
              { name := "m", mode := .symlink, hash := "M" }]
      else none
    blobs := fun i => if i = "L" then some "../f" else if i = "M" then some "../../x" else none }

/-- The root tree of `storLinkFix`. -/
def treeLink0 : Tree := Tree.top "t0"

/-- The subtree `d` of `storLinkFix` with its parent back-reference. -/
def treeLink1 : Tree := Tree.sub "t1" treeLink0

/-- The symlink `l` (target `../f`) of `storLinkFix`. -/
def entLnk : TreeEntry :=
  { id := "L", entry := { name := "l", mode := .symlink, hash := "L" }, ptree := some treeLink1 }

/-- The symlink `m` (target `../../x`, escaping the repository) of
`storLinkFix`. -/
def entLnkOut : TreeEntry :=
  { id := "M", entry := { name := "m", mode := .symlink, hash := "M" }, ptree := some treeLink1 }

/-- The regular file `f` of `storLinkFix`. -/
def entFile : TreeEntry :=
  { id := "F", entry := { name := "f", mode := .regular, hash := "F" }, ptree := some treeLink0 }

/-- Directory entry `lib` of the spec's sorting scenario. -/
def entSortLib : TreeEntry :=
  { id := "1", entry := { name := "lib", mode := .dir, hash := "1" }, ptree := none }

/-- File entry `main.go` of the spec's sorting scenario. -/
def entSortMain : TreeEntry :=
  { id := "2", entry := { name := "main.go", mode := .regular, hash := "2" }, ptree := none }

/-- File entry `Readme` of the spec's sorting scenario. -/
def entSortReadme : TreeEntry :=
  { id := "3", entry := { name := "Readme", mode := .regular, hash := "3" }, ptree := none }

/-! ## Theorems -/

/-- C1: adding a non-empty dynamic argument beginning with `-` breaks any
command — `Run` deterministically answers `ErrBrokenCommand` instead of
spawning a process — while the same text added as a trusted argument to a
non-broken command spawns normally with that argument in place. -/
theorem run_rejects_dynamic_dash_argument (c : Command) (arg : String)
    (h1 : arg ≠ "") (h2 : startsWithDash arg = true) :
    runCmd (addDynamicArguments c [arg]) = .brokenCommand ∧
    (c.brokenArgs = [] →
      runCmd (addArguments c [arg]) = .spawn c.name (c.args ++ [arg])) := by
  constructor
  · have hbe : (arg == "") = false := by simp [h1]
    have hf : List.filter (fun a => !(a == "") && startsWithDash a) [arg] = [arg] := by
      simp [List.filter, hbe, h2]
    have hne : c.brokenArgs ++ [arg] ≠ [] := by simp
    simp [addDynamicArguments, hf, hne, runCmd]
  · intro h
    simp [addArguments, runCmd, h]

/-- Witness for C1 at the spec's `-rf` example. -/
theorem run_rejects_dynamic_dash_argument_witness :
    runCmd (addDynamicArguments (newCommand ["log"]) ["-rf"]) = .brokenCommand ∧
    runCmd (addArguments (newCommand ["log"]) ["-rf"]) = .spawn "git" ["log", "-rf"] :=
  ⟨(run_rejects_dynamic_dash_argument (newCommand ["log"]) "-rf" (by decide) (by decide)).1,
   (run_rejects_dynamic_dash_argument (newCommand ["log"]) "-rf" (by decide) (by decide)).2 rfl⟩

/-- C8: `NewLastCommitCache` yields an enabled cache exactly when a backend
is injected, the feature flag is on and the commit count reaches the
threshold; and with no cache configured, `Commit.GetCommitByPath` is the
direct computation. -/
theorem lastCommitCache_enablement :
    (∀ (st : LastCommitSettings) (count : Int) (repoPath : String) (cachePresent : Bool),
      (newLastCommitCache st count repoPath cachePresent).isSome =
        (cachePresent && st.enabled && decide (st.commitsCount ≤ count))) ∧
    (∀ (repo : Repo) (b : CacheBackend) (c : Commit) (relpath : String),
      commitGetCommitByPath repo b none c relpath =
        (getCommitByPathWithID repo c.id relpath, b, none)) := by
  constructor
  · intro st count repoPath cachePresent
    unfold newLastCommitCache
    cases cachePresent with
    | false => simp
    | true =>
      cases hst : st.enabled with
      | false => simp
      | true =>
        rcases lt_or_le count st.commitsCount with hc | hc
        · simp [hc, not_le.mpr hc]
        · simp [hc, not_lt.mpr hc]
  · intro repo b c relpath
    rfl

/-- `RunStdString` never panics. -/
theorem runStdString_ne_panic (repo : Repo) (c : Command) :
    runStdString repo c ≠ .panic := by
  unfold runStdString
  cases h : runCmd c with
  | brokenCommand => simp
  | spawn name args => cases hx : repo.exec args <;> simp [hx]

/-- `NewIDFromString` never panics. -/
theorem newIDFromString_ne_panic (s : String) : newIDFromString s ≠ .panic := by
  unfold newIDFromString
  split <;> simp

/-- `getCommit` never panics. -/
theorem getCommitLow_ne_panic (repo : Repo) (id : SHA1) :
    getCommitLow repo id ≠ .panic := by
  unfold getCommitLow
  cases repo.commits id <;> simp

/-- C10: `getCommitByPathWithID` reads `relpath[0]` unconditionally, so the
empty path is outside its domain (index out of range), through both public
entry points — the uncached `Commit.GetCommitByPath` and the cache's miss
fallback — while every non-empty path stays inside the domain. -/
theorem getCommitByPath_empty_path_spec :
    (∀ (repo : Repo) (id : SHA1), getCommitByPathWithID repo id "" = .panic) ∧
    (∀ (repo : Repo) (b : CacheBackend) (c : Commit),
      commitGetCommitByPath repo b none c "" = (.panic, b, none)) ∧
    (∀ (repo : Repo) (b : CacheBackend) (lcc : LCC) (commitID : String) (sha : SHA1),
      newIDFromString commitID = .ok sha →
      backendGet b (getCacheKey lcc.repoPath sha "") = none →
      (lccGetCommitByPath repo b lcc commitID "").1 = .panic) ∧
    (∀ (repo : Repo) (id : SHA1) (relpath : String), relpath ≠ "" →
      getCommitByPathWithID repo id relpath ≠ .panic) := by
  refine ⟨fun repo id => rfl, fun repo b c => rfl, ?_, ?_⟩
  · intro repo b lcc commitID sha h1 h2
    have hget : lccGet repo b lcc sha "" = (.ok none, lcc) := by
      unfold lccGet
      rw [h2]
    have hpan : getCommitByPathWithID repo sha "" = .panic := rfl
    unfold lccGetCommitByPath
    rw [h1]
    dsimp only
    rw [hget]
    dsimp only
    rw [hpan]
  · intro repo id relpath hne
    obtain ⟨l⟩ := relpath
    cases l with
    | nil => exact absurd rfl hne
    | cons c0 cs =>
      unfold getCommitByPathWithID
      simp only
      cases hrun : runStdString repo
          (addDashesAndList (addDynamicArguments (newCommand ["log", "-1", prettyLogFormat]) [id])
            [if c0 = ':' then "\\" ++ String.mk (c0 :: cs) else String.mk (c0 :: cs)]) with
      | err e => simp
      | panic => exact absurd hrun (runStdString_ne_panic _ _)
      | ok stdout =>
        simp only
        cases hid : newIDFromString stdout with
        | err e => simp
        | panic => exact absurd hid (newIDFromString_ne_panic _)
        | ok id2 =>
          simp only
          exact getCommitLow_ne_panic repo id2

/-- Witness for C10 at a concrete repository, cache state and id. -/
theorem getCommitByPath_empty_path_spec_witness :
    (lccGetCommitByPath repoCacheFix backendOkFix lccFix hexA "").1 = .panic ∧
    getCommitByPathWithID repoCacheFix hexA "a" ≠ .panic :=
  ⟨getCommitByPath_empty_path_spec.2.2.1 repoCacheFix backendOkFix lccFix hexA hexA
      (by decide) (by decide),
   getCommitByPath_empty_path_spec.2.2.2 repoCacheFix hexA "a" (by decide)⟩

/-- C2: on a first-level cache miss, `Get` answers absent (`nil` result,
`nil` error); `GetCommitByPath` then computes the commit by the direct
history walk and returns it for every backend write behaviour — the entry
is written back when `Put` succeeds, the backend is untouched when `Put`
fails, and the returned commit is the same either way. -/
theorem lastCommitCache_miss_compute_writeback (repo : Repo) (b : CacheBackend)
    (lcc : LCC) (commitID entryPath : String) (sha : SHA1) (commit : Commit)
    (h1 : newIDFromString commitID = .ok sha)
    (h2 : backendGet b (getCacheKey lcc.repoPath sha entryPath) = none)
    (h3 : getCommitByPathWithID repo sha entryPath = .ok commit) :
    lccGet repo b lcc sha entryPath = (.ok none, lcc) ∧
    (lccGetCommitByPath repo b lcc commitID entryPath).1 = .ok commit ∧
    (b.putOk = true →
      (lccGetCommitByPath repo b lcc commitID entryPath).2.1.store =
        (getCacheKey lcc.repoPath commitID entryPath, commit.id) :: b.store) ∧
    (b.putOk = false →
      (lccGetCommitByPath repo b lcc commitID entryPath).2.1 = b) := by
  have hget : lccGet repo b lcc sha entryPath = (.ok none, lcc) := by
    unfold lccGet
    rw [h2]
  have hmain : lccGetCommitByPath repo b lcc commitID entryPath =
      (.ok commit, (lccPut b lcc commitID entryPath commit.id).1, lcc) := by
    unfold lccGetCommitByPath
    rw [h1]
    dsimp only
    rw [hget]
    dsimp only
    rw [h3]
  refine ⟨hget, by rw [hmain], ?_, ?_⟩
  · intro hput
    rw [hmain]
    simp [lccPut, backendPut, hput]
  · intro hput
    rw [hmain]
    simp [lccPut, backendPut, hput]

/-- Witness for C2 at a concrete repository and both backend write
behaviours. -/
theorem lastCommitCache_miss_compute_writeback_witness :
    lccGet repoCacheFix backendFailFix lccFix hexA "f.txt" = (.ok none, lccFix) ∧
    (lccGetCommitByPath repoCacheFix backendFailFix lccFix hexA "f.txt").1 =
      .ok { id := hexB, parents := [] } ∧
    (lccGetCommitByPath repoCacheFix backendFailFix lccFix hexA "f.txt").2.1 =
      backendFailFix ∧
    (lccGetCommitByPath repoCacheFix backendOkFix lccFix hexA "f.txt").1 =
      .ok { id := hexB, parents := [] } ∧
    (lccGetCommitByPath repoCacheFix backendOkFix lccFix hexA "f.txt").2.1.store =
      [(getCacheKey "/r" hexA "f.txt", hexB)] := by
  have wFail := lastCommitCache_miss_compute_writeback repoCacheFix backendFailFix lccFix
    hexA "f.txt" hexA { id := hexB, parents := [] } (by decide) (by decide) (by decide)
  have wOk := lastCommitCache_miss_compute_writeback repoCacheFix backendOkFix lccFix
    hexA "f.txt" hexA { id := hexB, parents := [] } (by decide) (by decide) (by decide)
  exact ⟨wFail.1, wFail.2.1, wFail.2.2.2 rfl, wOk.2.1, wOk.2.2.1 rfl⟩

/-- C6 counterexample: on the one-parent commit `cexCommit`, the
out-of-range index `-1` makes `ParentID` panic (Go negative slice index)
instead of returning the `ErrNotExist` value the claim predicts. -/
theorem parentID_negative_counterexample :
    parentID cexCommit (-1) = Out.panic ∧
    (Out.panic : Out SHA1) ≠ Out.err (GErr.notExist "" "") :=
  ⟨by decide, by decide⟩

/-- C6 (amended): `ParentID`/`Parent` are 0-indexed; an index at or above
`ParentCount()` fails with the `ErrNotExist` ("does not exist") error, an
in-range index returns the n-th parent, and a negative index is outside
the functions' domain (slice index out of range). -/
theorem parent_access_spec :
    (∀ (c : Commit) (n : Int), (c.parents.length : Int) ≤ n →
      parentID c n = .err (.notExist "" "")) ∧
    (∀ (c : Commit) (i : Fin c.parents.length),
      parentID c i.val = .ok (c.parents.get i)) ∧
    (∀ (c : Commit) (n : Int), n < 0 → parentID c n = .panic) ∧
    (∀ (repo : Repo) (c : Commit) (n : Int), (c.parents.length : Int) ≤ n →
      parent repo c n = .err (.notExist "" "")) ∧
    (∀ (repo : Repo) (c : Commit) (i : Fin c.parents.length) (pc : Commit),
      repo.commits (c.parents.get i) = some pc →
      parent repo c i.val = .ok pc) := by
  have hid : ∀ (c : Commit) (i : Fin c.parents.length),
      parentID c i.val = .ok (c.parents.get i) := by
    intro c i
    unfold parentID
    have h1 : ¬ ((c.parents.length : Int) ≤ (i.val : Int)) := by
      have := i.isLt
      omega
    have h2 : ¬ ((i.val : Int) < 0) := by omega
    have h3 : ((i.val : Int)).toNat = i.val := Int.toNat_natCast i.val
    rw [if_neg h1, if_neg h2, h3, List.get?_eq_get i.isLt]
  have hge : ∀ (c : Commit) (n : Int), (c.parents.length : Int) ≤ n →
      parentID c n = .err (.notExist "" "") := by
    intro c n h
    unfold parentID
    rw [if_pos h]
  refine ⟨hge, hid, ?_, ?_, ?_⟩
  · intro c n h
    unfold parentID
    have h1 : ¬ ((c.parents.length : Int) ≤ n) := by omega
    rw [if_neg h1, if_pos h]
  · intro repo c n h
    unfold parent
    rw [hge c n h]
  · intro repo c i pc hpc
    unfold parent
    rw [hid c i]
    dsimp only
    unfold getCommitLow
    rw [hpc]

/-- Witness for C6 (amended) on the one-parent fixture commit. -/
theorem parent_access_spec_witness :
    parentID cexCommit 1 = .err (.notExist "" "") ∧
    parentID cexCommit 0 = .ok "p0" ∧
    parentID cexCommit (-2) = .panic ∧
    parent repoParentFix cexCommit 0 = .ok parentCommitFix :=
  ⟨parent_access_spec.1 cexCommit 1 (by decide),
   parent_access_spec.2.1 cexCommit ⟨0, by decide⟩,
   parent_access_spec.2.2.1 cexCommit (-2) (by decide),
   parent_access_spec.2.2.2.2 repoParentFix cexCommit ⟨0, by decide⟩ parentCommitFix (by decide)⟩

/-- A not-found error produced by the single-segment scan carries the
cleaned segment. -/
theorem seg_notExist (σ : GitStorage) (t : Tree) (name i rp : String)
    (h : getTreeEntryByPathSeg σ t name = .err (.notExist i rp)) :
    i = "" ∧ rp = pathClean name := by
  unfold getTreeEntryByPathSeg at h
  by_cases h0 : strLen name = 0
  · rw [if_pos h0] at h
    exact absurd h (by simp)
  · rw [if_neg h0] at h
    dsimp only at h
    cases hT : σ.trees t.id with
    | none =>
      rw [show listEntries σ t = .err .objNotFound by unfold listEntries; rw [hT]] at h
      dsimp only at h
      obtain ⟨rfl, rfl⟩ : "" = i ∧ pathClean name = rp := by
        injection h with h1
        injection h1 with h2 h3
        exact ⟨h2, h3⟩
      exact ⟨rfl, rfl⟩
    | some es =>
      rw [show listEntries σ t =
            .ok (es.map (fun e => { id := e.hash, entry := e, ptree := some t })) by
          unfold listEntries; rw [hT]] at h
      dsimp only at h
      cases hf : (es.map (fun e =>
          ({ id := e.hash, entry := e, ptree := some t } : TreeEntry))).find?
            (fun v => teName v == pathClean name) with
      | some v => rw [hf] at h; exact absurd h (by simp)
      | none =>
        rw [hf] at h
        obtain ⟨rfl, rfl⟩ : "" = i ∧ pathClean name = rp := by
          injection h with h1
          injection h1 with h2 h3
          exact ⟨h2, h3⟩
        exact ⟨rfl, rfl⟩

/-- A not-found error produced by the single-segment `SubTree` carries the
cleaned segment. -/
theorem sub_notExist (σ : GitStorage) (t : Tree) (name i rp : String)
    (h : subTreeSingle σ t name = .err (.notExist i rp)) :
    i = "" ∧ rp = pathClean name := by
  unfold subTreeSingle at h
  by_cases h0 : strLen name = 0
  · rw [if_pos h0] at h
    exact absurd h (by simp)
  · rw [if_neg h0] at h
    cases hs : getTreeEntryByPathSeg σ t name with
    | err e =>
      rw [hs] at h
      dsimp only at h
      injection h with h1
      subst h1
      exact seg_notExist σ t name i rp hs
    | panic => rw [hs] at h; exact absurd h (by simp)
    | ok te =>
      rw [hs] at h
      dsimp only at h
      cases hg : σ.trees te.id with
      | none =>
        rw [show getTree σ te.id = .err .objNotFound by unfold getTree; rw [hg]] at h
        exact absurd h (by simp)
      | some es =>
        rw [show getTree σ te.id = .ok (.top te.id) by unfold getTree; rw [hg]] at h
        exact absurd h (by simp)

/-- A not-found error of the descent loop carries either the full cleaned
path or the cleaned failing intermediate segment. -/
theorem aux_notExist (parts : List String) :
    ∀ (σ : GitStorage) (t : Tree) (relpath i rp : String),
      getTreeEntryByPathAux σ t parts relpath = .err (.notExist i rp) →
      i = "" ∧ (rp = relpath ∨ rp ∈ parts.map pathClean) := by
  induction parts with
  | nil =>
    intro σ t relpath i rp h
    unfold getTreeEntryByPathAux at h
    injection h with h1
    injection h1 with h2 h3
    exact ⟨h2.symm, Or.inl h3.symm⟩
  | cons name rest ih =>
    intro σ t relpath i rp h
    cases rest with
    | nil =>
      unfold getTreeEntryByPathAux at h
      cases hT : σ.trees t.id with
      | none =>
        rw [show listEntries σ t = .err .objNotFound by unfold listEntries; rw [hT]] at h
        dsimp only at h
        injection h with h1
        injection h1 with h2 h3
        exact ⟨h2.symm, Or.inl h3.symm⟩
      | some es =>
        rw [show listEntries σ t =
              .ok (es.map (fun e => { id := e.hash, entry := e, ptree := some t })) by
            unfold listEntries; rw [hT]] at h
        dsimp only at h
        cases hf : (es.map (fun e =>
            ({ id := e.hash, entry := e, ptree := some t } : TreeEntry))).find?
              (fun v => teName v == name) with
        | some v => rw [hf] at h; exact absurd h (by simp)
        | none =>
          rw [hf] at h
          injection h with h1
          injection h1 with h2 h3
          exact ⟨h2.symm, Or.inl h3.symm⟩
    | cons name2 rest2 =>
      unfold getTreeEntryByPathAux at h
      cases hs : subTreeSingle σ t name with
      | err e =>
        rw [hs] at h
        cases e with
        | objNotFound =>
          dsimp only at h
          injection h with h1
          injection h1 with h2 h3
          exact ⟨h2.symm, Or.inl h3.symm⟩
        | notExist i2 rp2 =>
          dsimp only at h
          injection h with h1
          injection h1 with h2 h3
          subst h2
          subst h3
          obtain ⟨hi, hrp⟩ := sub_notExist σ t name i2 rp2 hs
          exact ⟨hi, Or.inr (by simp [hrp])⟩
        | badLink a b => dsimp only at h; exact absurd h (by simp)
        | brokenCmd => dsimp only at h; exact absurd h (by simp)
        | invalidID s => dsimp only at h; exact absurd h (by simp)
        | backendFail s => dsimp only at h; exact absurd h (by simp)
      | panic => rw [hs] at h; exact absurd h (by simp)
      | ok t2 =>
        rw [hs] at h
        dsimp only at h
        obtain ⟨hi, hrest⟩ := ih σ t2 relpath i rp h
        refine ⟨hi, ?_⟩
        rcases hrest with h4 | h4
        · exact Or.inl h4
        · exact Or.inr (by simp_all [List.mem_cons])

/-- C5 counterexample: over `storPathFix` (which has no entry `a`), the
failed descent of `a/b` returns a not-found error carrying only the
failing segment `a`, not the queried path `a/b`. -/
theorem getTreeEntryByPath_counterexample :
    getTreeEntryByPath storPathFix treePathFix "a/b" = .err (.notExist "" "a") ∧
    ("a" : String) ≠ "a/b" :=
  ⟨by decide, by decide⟩

/-- C5 (amended): the empty path resolves to the synthetic self-referencing
root entry of the tree; a failed descent yields a not-found error whose
relative path is either the cleaned full query path (terminal-segment miss,
or an intermediate entry that is not a tree) or the single failing
intermediate segment (missing intermediate directory). -/
theorem getTreeEntryByPath_spec :
    (∀ (σ : GitStorage) (t : Tree), getTreeEntryByPath σ t "" = .ok (syntheticRoot t)) ∧
    (∀ (σ : GitStorage) (t : Tree) (p i rp : String),
      getTreeEntryByPath σ t p = .err (.notExist i rp) →
      i = "" ∧ (rp = pathClean p ∨ rp ∈ (strSplit (pathClean p) '/').map pathClean)) := by
  constructor
  · intro σ t
    rfl
  · intro σ t p i rp h
    unfold getTreeEntryByPath at h
    by_cases h0 : strLen p = 0
    · rw [if_pos h0] at h
      exact absurd h (by simp)
    · rw [if_neg h0] at h
      exact aux_notExist (strSplit (pathClean p) '/') σ t (pathClean p) i rp h

/-- Witness for C5 (amended) at the counterexample input. -/
theorem getTreeEntryByPath_spec_witness :
    getTreeEntryByPath storPathFix treePathFix "" = .ok (syntheticRoot treePathFix) ∧
    (("" : String) = "" ∧
      (("a" : String) = pathClean "a/b" ∨
        ("a" : String) ∈ (strSplit (pathClean "a/b") '/').map pathClean)) :=
  ⟨getTreeEntryByPath_spec.1 storPathFix treePathFix,
   getTreeEntryByPath_spec.2 storPathFix treePathFix "a/b" "" "a" (by decide)⟩

/-- Reading a symlink entry whose blob is `lnk` reduces `FollowLink` to the
ancestor walk over `lnk` followed by path resolution. -/
theorem followLink_reduces (σ : GitStorage) (te : TreeEntry) (lnk : String)
    (hL : isLink te = true) (hB : σ.blobs te.entry.hash = some lnk) :
    followLink σ te =
      (match ascendLoop te.ptree lnk with
       | (none, _) => .err (.badLink (teName te) "points outside of repo")
       | (some t, lnk2) =>
         match getTreeEntryByPath σ t lnk2 with
         | .err e =>
           if isErrNotExist e then .err (.badLink (teName te) "broken link")
           else .err e
         | .panic => .panic
         | .ok target => .ok target) := by
  have hmode : te.entry.mode = .symlink := by
    have := hL
    unfold isLink at this
    exact eq_of_beq this
  have hnd : isDir te = false := by
    unfold isDir
    rw [hmode]
    rfl
  have hsz : entrySize σ te = strLen lnk := by
    unfold entrySize
    rw [if_neg (by simp [hnd]), hB]
  have htk : strTake lnk (strLen lnk) = lnk := by
    unfold strTake strLen
    rw [List.take_length]
  unfold followLink
  rw [hL]
  simp only [Bool.not_true, Bool.false_eq_true, if_false]
  rw [hB]
  dsimp only
  rw [hsz, if_neg (lt_irrefl _), htk]

/-- C4: for a symlink entry, `FollowLink` strips leading `../` segments of
the link target while stepping up ancestor trees; an exhausted ancestor
chain fails with the outside-of-repository error (literal message
"points outside of repo"), and the remaining path is resolved through
`GetTreeEntryByPath` on the arrived-at tree, any not-found result becoming
the "broken link" error. -/
theorem followLink_spec (σ : GitStorage) (te : TreeEntry) (lnk : String)
    (hL : isLink te = true) (hB : σ.blobs te.entry.hash = some lnk) :
    ((ascendLoop te.ptree lnk).1 = none →
      followLink σ te = .err (.badLink (teName te) "points outside of repo")) ∧
    (∀ (t : Tree) (lnk2 : String), ascendLoop te.ptree lnk = (some t, lnk2) →
      (∀ (i p : String), getTreeEntryByPath σ t lnk2 = .err (.notExist i p) →
        followLink σ te = .err (.badLink (teName te) "broken link")) ∧
      (∀ (target : TreeEntry), getTreeEntryByPath σ t lnk2 = .ok target →
        followLink σ te = .ok target)) ∧
    (∀ (s : String) (id : SHA1) (pt : Tree), strStarts s "../" = true →
      ascendLoop (some (Tree.sub id pt)) s = ascendLoop (some pt) (strDrop s 3) ∧
      ascendLoop (some (Tree.top id)) s = (none, strDrop s 3)) := by
  have key := followLink_reduces σ te lnk hL hB
  refine ⟨?_, ?_, ?_⟩
  · intro hnone
    rw [key]
    cases ha : ascendLoop te.ptree lnk with
    | mk fst snd =>
      cases fst with
      | none => rfl
      | some t => rw [ha] at hnone; exact absurd hnone (by simp)
  · intro t lnk2 ha
    rw [key, ha]
    dsimp only
    constructor
    · intro i p hres
      rw [hres]
      rfl
    · intro target hres
      rw [hres]
  · intro s id pt hs
    constructor
    · simp only [ascendLoop, ascendLoopTree, hs, if_true]
    · simp only [ascendLoop, ascendLoopTree, hs, if_true]

/-- Witness for C4: the link `../f` resolves through the parent tree to the
file `f`; the link `../../x` exhausts the ancestor chain. -/
theorem followLink_spec_witness :
    followLink storLinkFix entLnk = .ok entFile ∧
    followLink storLinkFix entLnkOut = .err (.badLink "m" "points outside of repo") :=
  ⟨((followLink_spec storLinkFix entLnk "../f" (by decide) (by decide)).2.1
      treeLink0 "f" (by decide)).2 entFile (by decide),
   (followLink_spec storLinkFix entLnkOut "../../x" (by decide) (by decide)).1 (by decide)⟩

/-- The bounded loop resolves a chain of `n` good hops within its budget. -/
theorem followLinksAux_chain_ok (n : Nat) :
    ∀ (σ : GitStorage) (chain : Nat → TreeEntry) (fuel : Nat),
      n ≤ fuel → (∀ i, i < n → ChainStep σ chain i) → isLink (chain n) = false →
      followLinksAux σ fuel (chain 0) = .ok (chain n) := by
  induction n with
  | zero =>
    intro σ chain fuel hf hsteps hlast
    cases fuel with
    | zero => rfl
    | succ f =>
      unfold followLinksAux
      rw [hlast]
      simp
  | succ m ih =>
    intro σ chain fuel hf hsteps hlast
    obtain ⟨f, rfl⟩ : ∃ f, fuel = f + 1 := ⟨fuel - 1, by omega⟩
    obtain ⟨hl0, hf0, hid0⟩ := hsteps 0 (by omega)
    unfold followLinksAux
    rw [hl0]
    simp only [if_true]
    rw [hf0]
    dsimp only
    rw [if_neg hid0]
    exact ih σ (fun i => chain (i + 1)) f (by omega)
      (fun i hi => hsteps (i + 1) (by omega)) hlast

/-- The bounded loop detects a locally recursive link within its budget. -/
theorem followLinksAux_chain_rec (k : Nat) :
    ∀ (σ : GitStorage) (chain : Nat → TreeEntry) (fuel : Nat) (e2 : TreeEntry),
      k < fuel → (∀ i, i < k → ChainStep σ chain i) → isLink (chain k) = true →
      followLink σ (chain k) = .ok e2 → e2.id = (chain k).id →
      followLinksAux σ fuel (chain 0) =
        .err (.badLink (teName (chain k)) "recursive link") := by
  induction k with
  | zero =>
    intro σ chain fuel e2 hf hsteps hlk hfl hid
    obtain ⟨f, rfl⟩ : ∃ f, fuel = f + 1 := ⟨fuel - 1, by omega⟩
    unfold followLinksAux
    rw [hlk]
    simp only [if_true]
    rw [hfl]
    dsimp only
    rw [if_pos hid]
  | succ m ih =>
    intro σ chain fuel e2 hf hsteps hlk hfl hid
    obtain ⟨f, rfl⟩ : ∃ f, fuel = f + 1 := ⟨fuel - 1, by omega⟩
    obtain ⟨hl0, hf0, hid0⟩ := hsteps 0 (by omega)
    unfold followLinksAux
    rw [hl0]
    simp only [if_true]
    rw [hf0]
    dsimp only
    rw [if_neg hid0]
    exact ih σ (fun i => chain (i + 1)) f e2 (by omega)
      (fun i hi => hsteps (i + 1) (by omega)) hlk hfl hid

/-- The bounded loop consumes all its fuel along an everywhere-good chain. -/
theorem followLinksAux_chain_all (fuel : Nat) :
    ∀ (σ : GitStorage) (chain : Nat → TreeEntry),
      (∀ i, i < fuel → ChainStep σ chain i) →
      followLinksAux σ fuel (chain 0) = .ok (chain fuel) := by
  induction fuel with
  | zero =>
    intro σ chain hsteps
    rfl
  | succ f ih =>
    intro σ chain hsteps
    obtain ⟨hl0, hf0, hid0⟩ := hsteps 0 (by omega)
    unfold followLinksAux
    rw [hl0]
    simp only [if_true]
    rw [hf0]
    dsimp only
    rw [if_neg hid0]
    exact ih σ (fun i => chain (i + 1)) (fun i hi => hsteps (i + 1) (by omega))

/-- C3: along a chain of symlinks, `FollowLinks` resolves at most 999
non-cyclic hops to the final non-symlink target; a hop whose resolved
target has the id of the entry that pointed to it fails with
"recursive link"; a chain that is still a symlink after 999 hops fails
with "too many levels of symbolic links". -/
theorem followLinks_resolution_spec (σ : GitStorage) (chain : Nat → TreeEntry)
    (n k : Nat) :
    (1 ≤ n → n ≤ 999 → (∀ i, i < n → ChainStep σ chain i) →
      isLink (chain n) = false → followLinks σ (chain 0) = .ok (chain n)) ∧
    (k < 999 → (∀ i, i < k → ChainStep σ chain i) → isLink (chain k) = true →
      ∀ e2, followLink σ (chain k) = .ok e2 → e2.id = (chain k).id →
        followLinks σ (chain 0) =
          .err (.badLink (teName (chain k)) "recursive link")) ∧
    ((∀ i, i < 999 → ChainStep σ chain i) → isLink (chain 999) = true →
      followLinks σ (chain 0) =
        .err (.badLink (teName (chain 0)) "too many levels of symbolic links")) := by
  refine ⟨?_, ?_, ?_⟩
  · intro h1 h2 hsteps hlast
    have hl0 : isLink (chain 0) = true := (hsteps 0 (by omega)).1
    unfold followLinks
    rw [hl0]
    simp only [Bool.not_true, Bool.false_eq_true, if_false]
    rw [followLinksAux_chain_ok n σ chain 999 (by omega) hsteps hlast]
    dsimp only
    rw [hlast]
    simp
  · intro hk hsteps hlk e2 hfl hid
    have hl0 : isLink (chain 0) = true := by
      rcases Nat.eq_zero_or_pos k with rfl | hpos
      · exact hlk
      · exact (hsteps 0 hpos).1
    unfold followLinks
    rw [hl0]
    simp only [Bool.not_true, Bool.false_eq_true, if_false]
    rw [followLinksAux_chain_rec k σ chain 999 e2 hk hsteps hlk hfl hid]
  · intro hsteps hlast
    have hl0 : isLink (chain 0) = true := (hsteps 0 (by omega)).1
    unfold followLinks
    rw [hl0]
    simp only [Bool.not_true, Bool.false_eq_true, if_false]
    rw [followLinksAux_chain_all 999 σ chain hsteps]
    dsimp only
    rw [hlast]
    simp

/-- Witness for C3: the two-hop chain a → b → c resolves to the file `c`;
the self-referential link `s` fails with "recursive link"; the two-cycle
a ↔ b exhausts the 999-hop budget. -/
theorem followLinks_resolution_spec_witness :
    followLinks storChainFix entA = .ok entC ∧
    followLinks storSelfFix entSelf = .err (.badLink "s" "recursive link") ∧
    followLinks storCycleFix entCycA =
      .err (.badLink "a" "too many levels of symbolic links") := by
  refine ⟨?_, ?_, ?_⟩
  · exact (followLinks_resolution_spec storChainFix chainFix 2 0).1
      (by omega) (by omega) (by decide) (by decide)
  · exact (followLinks_resolution_spec storSelfFix (fun _ => entSelf) 0 0).2.1
      (by omega) (by omega) (by decide) entSelf (by decide) (by decide)
  · have hsteps : ∀ i, i < 999 → ChainStep storCycleFix chainCycFix i := by
      intro i hi
      rcases Nat.even_or_odd i with he | ho
      · have h2 : i % 2 = 0 := Nat.even_iff.mp he
        have h3 : (i + 1) % 2 = 1 := by omega
        unfold ChainStep chainCycFix
        rw [h2, h3]
        decide
      · have h2 : i % 2 = 1 := Nat.odd_iff.mp ho
        have h3 : (i + 1) % 2 = 0 := by omega
        unfold ChainStep chainCycFix
        rw [h2, h3]
        decide
    exact (followLinks_resolution_spec storCycleFix chainCycFix 0 0).2.2
      hsteps (by decide)

/-- C9 counterexample: a `.gitmodules` whose submodule block contains the
bare line `path` (no `=`) makes the parser index `fields[1]` out of range,
so `GetSubModules` panics instead of returning a partial result. -/
theorem getSubModules_counterexample :
    getSubModules ["[submodule \"x\"]", "path"] = Out.panic ∧
    Out.isOk (getSubModules ["[submodule \"x\"]", "path"]) = false :=
  ⟨by decide, by decide⟩

/-- The parser loop returns a (partial) result from any start state as long
as every line keeps it inside its domain. -/
theorem parseSubModulesLines_total (lines : List String) :
    ∀ (ismodule : Bool) (path : String) (acc : List (String × SubModule)),
      (∀ line ∈ lines, SubModuleLineSafe line) →
      Out.isOk (parseSubModulesLines lines ismodule path acc) = true := by
  induction lines with
  | nil =>
    intro ismodule path acc hsafe
    rfl
  | cons line rest ih =>
    intro ismodule path acc hsafe
    have hline : SubModuleLineSafe line := hsafe line (by simp)
    have hrest : ∀ l2 ∈ rest, SubModuleLineSafe l2 := fun l2 hl2 => hsafe l2 (by simp [hl2])
    unfold parseSubModulesLines
    by_cases h1 : strStarts line "[submodule" = true
    · rw [if_pos h1]
      exact ih true path acc hrest
    · rw [if_neg h1]
      cases hmod : ismodule with
      | false => simp only [if_false, Bool.false_eq_true]; exact ih false path acc hrest
      | true =>
        simp only [if_true]
        by_cases hp : strTrim ((strSplit line '=').headD "") = "path"
        · rw [if_pos hp]
          have hlen : 2 ≤ (strSplit line '=').length := hline (Or.inl hp)
          cases hg : (strSplit line '=').get? 1 with
          | none =>
            have := List.get?_eq_none.mp hg
            omega
          | some f1 => exact ih true (strTrim f1) acc hrest
        · rw [if_neg hp]
          by_cases hu : strTrim ((strSplit line '=').headD "") = "url"
          · rw [if_pos hu]
            have hlen : 2 ≤ (strSplit line '=').length := hline (Or.inr hu)
            cases hg : (strSplit line '=').get? 1 with
            | none =>
              have := List.get?_eq_none.mp hg
              omega
            | some f1 =>
              exact ih false path (objCacheSet acc path { name := path, url := strTrim f1 }) hrest
          · rw [if_neg hu]
            exact ih true path acc hrest

/-- C9 (amended): `GetSubModules` parses line by line, tracking the
inside-a-`[submodule ...]`-block state and collecting `path =` then `url =`
pairs; irregular lines are skipped silently and the partially collected
result is returned, for every input in which no block line consists of a
bare `path` or `url` with no `=` — such a line is outside the parser's
domain (`fields[1]` index out of range). -/
theorem getSubModules_partial_spec (lines : List String)
    (hsafe : ∀ line ∈ lines, SubModuleLineSafe line) :
    Out.isOk (getSubModules lines) = true :=
  parseSubModulesLines_total lines false "" [] hsafe

/-- Witness for C9 (amended) on a malformed-but-in-domain file: stray
lines around one complete block still parse to a partial result. -/
theorem getSubModules_partial_spec_witness :
    Out.isOk (getSubModules
      ["garbage", "[submodule \"a\"]", "path = sub", "junk line", "url = http://x", "stray"]) =
      true :=
  getSubModules_partial_spec
    ["garbage", "[submodule \"a\"]", "path = sub", "junk line", "url = http://x", "stray"]
    (by decide)

/-- The first sorter comparator in terms of the combined dir-or-submodule
test. -/
theorem sorter0_eq (a b : TreeEntry) : sorter0 a b = (dirish a && !dirish b) := by
  unfold sorter0 dirish
  cases isDir b <;> cases isSubModule b <;> simp

/-- The two-tier `Less` in terms of `dirish` and the name comparator. -/
theorem entriesLess_eq (cmp : String → String → Bool) (a b : TreeEntry) :
    entriesLess cmp a b =
      (if dirish a && !dirish b then true
       else if dirish b && !dirish a then false
       else cmp (teName a) (teName b)) := by
  unfold entriesLess sorter1
  rw [sorter0_eq, sorter0_eq]

/-- Asymmetry of `Less` for an asymmetric name comparator. -/
theorem entriesLess_asymm (cmp : String → String → Bool)
    (hasym : ∀ a b, cmp a b = true → cmp b a = true → False) (x y : TreeEntry) :
    entriesLess cmp x y = true → entriesLess cmp y x = true → False := by
  intro h1 h2
  cases hdx : dirish x <;> cases hdy : dirish y <;>
    simp only [entriesLess_eq, hdx, hdy, Bool.and_true, Bool.and_false, Bool.not_true,
      Bool.not_false, Bool.true_and, Bool.false_and, if_true, if_false] at h1 h2 <;>
    first
      | exact hasym _ _ h1 h2
      | simp_all

/-- Totality of the induced order for an asymmetric name comparator. -/
theorem entriesLE_total (cmp : String → String → Bool)
    (hasym : ∀ a b, cmp a b = true → cmp b a = true → False) (a b : TreeEntry) :
    entriesLE cmp a b ∨ entriesLE cmp b a := by
  by_cases h : entriesLess cmp b a = false
  · exact Or.inl h
  · right
    rw [Bool.not_eq_false] at h
    unfold entriesLE
    by_contra h2
    rw [Bool.not_eq_false] at h2
    exact entriesLess_asymm cmp hasym b a h h2

/-- Transitivity of the induced order for a negatively transitive name
comparator. -/
theorem entriesLE_trans (cmp : String → String → Bool)
    (hneg : ∀ a b c, cmp a c = true → cmp a b = true ∨ cmp b c = true)
    (a b c : TreeEntry) :
    entriesLE cmp a b → entriesLE cmp b c → entriesLE cmp a c := by
  intro hab hbc
  unfold entriesLE at hab hbc ⊢
  by_contra hca
  rw [Bool.not_eq_false] at hca
  cases hda : dirish a <;> cases hdb : dirish b <;> cases hdc : dirish c <;>
    simp only [entriesLess_eq, hda, hdb, hdc, Bool.and_true, Bool.and_false, Bool.not_true,
      Bool.not_false, Bool.true_and, Bool.false_and, if_true, if_false] at hab hbc hca <;>
    first
      | (simp_all; done)
      | (rcases hneg (teName c) (teName b) (teName a) hca with h | h <;> simp_all)

/-- C7: `Entries.Sort`/`CustomSort` (for a name comparator that is a strict
weak order, as the default `s1 < s2` is) is idempotent — in particular an
already-sorted list is left unchanged — and its output is sorted by the
two-tier comparator, so every directory or submodule entry precedes every
plain entry and remaining ties are ordered by the name comparator,
regardless of the input order. -/
theorem entries_sort_spec (cmp : String → String → Bool) (l : List TreeEntry)
    (hasym : ∀ a b, cmp a b = true → cmp b a = true → False)
    (hneg : ∀ a b c, cmp a c = true → cmp a b = true ∨ cmp b c = true) :
    entriesCustomSort cmp (entriesCustomSort cmp l) = entriesCustomSort cmp l ∧
    (List.Sorted (entriesLE cmp) l → entriesCustomSort cmp l = l) ∧
    List.Pairwise (fun a b => dirish b = true → dirish a = true)
      (entriesCustomSort cmp l) ∧
    List.Sorted (entriesLE cmp) (entriesCustomSort cmp l) := by
  haveI : IsTotal TreeEntry (entriesLE cmp) := ⟨entriesLE_total cmp hasym⟩
  haveI : IsTrans TreeEntry (entriesLE cmp) := ⟨entriesLE_trans cmp hneg⟩
  have hsorted : ∀ l2, List.Sorted (entriesLE cmp) (entriesCustomSort cmp l2) :=
    fun l2 => List.sorted_insertionSort (entriesLE cmp) l2
  refine ⟨?_, ?_, ?_, hsorted l⟩
  · exact List.Sorted.insertionSort_eq (hsorted l)
  · intro h
    exact List.Sorted.insertionSort_eq h
  · refine List.Pairwise.imp ?_ (hsorted l)
    intro a b hle
    intro hdb
    by_contra hda
    rw [Bool.not_eq_true] at hda
    have hlt : entriesLess cmp b a = true := by
      rw [entriesLess_eq, hdb, hda]
      simp
    unfold entriesLE at hle
    rw [hlt] at hle
    exact absurd hle (by decide)

/-- Lexicographic character comparison is asymmetric. -/
theorem chLt_asymm : ∀ (l1 l2 : List Char), chLt l1 l2 = true → chLt l2 l1 = true → False := by
  intro l1
  induction l1 with
  | nil =>
    intro l2 h1 h2
    cases l2 with
    | nil => exact absurd h1 (by simp [chLt])
    | cons b bs => exact absurd h2 (by simp [chLt])
  | cons a as ih =>
    intro l2 h1 h2
    cases l2 with
    | nil => exact absurd h1 (by simp [chLt])
    | cons b bs =>
      unfold chLt at h1 h2
      by_cases hab : a < b
      · rw [if_neg (lt_asymm hab), if_pos hab] at h2
        exact absurd h2 (by simp)
      · rw [if_neg hab] at h1
        by_cases hba : b < a
        · rw [if_pos hba] at h1
          exact absurd h1 (by simp)
        · rw [if_neg hba] at h1
          rw [if_neg hba, if_neg hab] at h2
          exact ih bs h1 h2

/-- Lexicographic character comparison is negatively transitive. -/
theorem chLt_neg_trans : ∀ (l1 l2 l3 : List Char),
    chLt l1 l3 = true → chLt l1 l2 = true ∨ chLt l2 l3 = true := by
  intro l1
  induction l1 with
  | nil =>
    intro l2 l3 h
    cases l3 with
    | nil => exact absurd h (by simp [chLt])
    | cons c cs =>
      cases l2 with
      | nil => exact Or.inr (by simp [chLt])
      | cons d ds => exact Or.inl (by simp [chLt])
  | cons a as ih =>
    intro l2 l3 h
    cases l3 with
    | nil => exact absurd h (by simp [chLt])
    | cons b bs =>
      cases l2 with
      | nil => exact Or.inr (by simp [chLt])
      | cons c cs =>
        unfold chLt at h ⊢
        by_cases hab : a < b
        · rcases lt_trichotomy a c with hac | hac | hac
          · exact Or.inl (by rw [if_pos hac])
          · subst hac
            right
            rw [if_pos hab]
          · right
            rw [if_pos (lt_trans hac hab)]
        · by_cases hba : b < a
          · rw [if_neg hab, if_pos hba] at h
            exact absurd h (by simp)
          · rw [if_neg hab, if_neg hba] at h
            rcases lt_trichotomy a c with hac | hac | hac
            · exact Or.inl (by rw [if_pos hac])
            · subst hac
              rcases ih cs bs h with h4 | h4
              · left
                rw [if_neg (lt_irrefl a), if_neg (lt_irrefl a)]
                exact h4
              · right
                rw [if_neg hab, if_neg hba]
                exact h4
            · right
              rw [if_pos (lt_of_lt_of_le hac (not_lt.mp hba))]

/-- The default comparator is asymmetric. -/
theorem defaultCmp_asymm (a b : String) :
    defaultCmp a b = true → defaultCmp b a = true → False :=
  fun h1 h2 => chLt_asymm a.data b.data h1 h2

/-- The default comparator is negatively transitive. -/
theorem defaultCmp_neg_trans (a b c : String) :
    defaultCmp a c = true → defaultCmp a b = true ∨ defaultCmp b c = true :=
  fun h => chLt_neg_trans a.data b.data c.data h

/-- Witness for C7 on the spec's sorting scenario
(dir `lib`, files `main.go` and `Readme`). -/
theorem entries_sort_spec_witness :
    entriesSort (entriesSort [entSortMain, entSortReadme, entSortLib]) =
      entriesSort [entSortMain, entSortReadme, entSortLib] ∧
    entriesSort [entSortLib, entSortReadme, entSortMain] =
      [entSortLib, entSortReadme, entSortMain] ∧
    List.Pairwise (fun a b => dirish b = true → dirish a = true)
      (entriesSort [entSortMain, entSortReadme, entSortLib]) ∧
    List.Sorted (entriesLE defaultCmp)
      (entriesSort [entSortMain, entSortReadme, entSortLib]) :=
  ⟨(entries_sort_spec defaultCmp [entSortMain, entSortReadme, entSortLib]
      defaultCmp_asymm defaultCmp_neg_trans).1,
   (entries_sort_spec defaultCmp [entSortLib, entSortReadme, entSortMain]
      defaultCmp_asymm defaultCmp_neg_trans).2.1 (by decide),
   (entries_sort_spec defaultCmp [entSortMain, entSortReadme, entSortLib]
      defaultCmp_asymm defaultCmp_neg_trans).2.2.1,
   (entries_sort_spec defaultCmp [entSortMain, entSortReadme, entSortLib]
      defaultCmp_asymm defaultCmp_neg_trans).2.2.2⟩

end Gitlib
